import Mathlib

/-!
# Verification of the GreekTrafficData ingestion and correction passes

Shallow embedding of `fetch_latest.py`, `corrector_v2.py` and the
generation-1 corrector `corrector.py` (which lives inside the `.gitignore`
directory of the source tree).

CSV rows are `List String`; a store file is `Option (List (List String))`
(`none` = the file does not exist).  All I/O (HTTP fetch, file rename,
printing) is treated as the external collaborator it is in the spec; the
functions below are the pure row/string transformations the claims are about.

Python `datetime` values are modelled as explicit wall-clock components
(`PyDT`) plus a UTC offset in minutes.  The `ZoneInfo("Europe/Athens")`
time zone is modelled by the current EU daylight-saving rule (standard
offset +02:00, summer offset +03:00, spring transition on the last Sunday
of March at 03:00 local, autumn transition on the last Sunday of October at
04:00 local summer time), which the IANA database prescribes for all years
beyond its transition table; the zone's historical offsets (before the
mid-1990s) differ and are not modelled.  `fold=0` (PEP 495) semantics are
used when a naive wall-clock time is localized, exactly as
`datetime.replace(tzinfo=...)` does in the source.
-/

set_option maxHeartbeats 2000000
set_option maxRecDepth 10000

namespace GTD

/-! ## Proleptic Gregorian calendar (as used by Python `datetime`) -/

/-- Leap year test, as in the Gregorian calendar used by `datetime`. -/
def isLeap (y : Nat) : Bool :=
  (y % 4 == 0 && y % 100 != 0) || y % 400 == 0

/-- Days in month `m` (1..12) of a year with leap flag `leap`. -/
def dimL (leap : Bool) (m : Nat) : Nat :=
  match m with
  | 1 => 31 | 2 => if leap then 29 else 28 | 3 => 31 | 4 => 30
  | 5 => 31 | 6 => 30 | 7 => 31 | 8 => 31
  | 9 => 30 | 10 => 31 | 11 => 30 | 12 => 31
  | _ => 0

/-- Days in month `m` of year `y`. -/
def daysInMonth (y m : Nat) : Nat := dimL (isLeap y) m

/-- Days in year `y` (365 or 366). -/
def daysInYear (y : Nat) : Nat := if isLeap y then 366 else 365

/-- Days in the months `1..m-1` of a year with leap flag `leap`. -/
def daysBeforeMonth (leap : Bool) : Nat → Nat
  | 0 => 0
  | m + 1 => if m = 0 then 0 else daysBeforeMonth leap m + dimL leap m

/-- Total days in the months `s, s+1, ..., s+k-1` of a year with leap flag
`leap` (proof-oriented recursion). -/
def sumMonths (leap : Bool) (s : Nat) : Nat → Nat
  | 0 => 0
  | k + 1 => dimL leap s + sumMonths leap (s + 1) k

/-- Total days in the years `s, s+1, ..., s+l-1` (proof-oriented recursion). -/
def sumYears (s : Nat) : Nat → Nat
  | 0 => 0
  | l + 1 => daysInYear s + sumYears (s + 1) l

/-- Total days in the years `1..n`, in closed form (365 per year plus the
Gregorian leap-day count). -/
def closedDays (n : Nat) : Nat := 365 * n + n / 4 + n / 400 - n / 100

/-- Day number (0-based) of the proleptic Gregorian date `y-m-d`,
counted from 0001-01-01 (so `toDays 1 1 1 = 0`). -/
def toDays (y m d : Nat) : Nat :=
  closedDays (y - 1) + daysBeforeMonth (isLeap y) m + (d - 1)

/-- Fuel-driven month lookup: given a 0-based day-of-year, return `(month, day)`. -/
def goM (leap : Bool) : Nat → Nat → Nat → Nat × Nat
  | 0, m, doy => (m, doy + 1)
  | f + 1, m, doy =>
    if doy < dimL leap m then (m, doy + 1) else goM leap f (m + 1) (doy - dimL leap m)

/-- Fuel-driven year lookup: starting at year `y`, peel whole years off the
0-based day number `n` and resolve the month/day inside the final year. -/
def goY : Nat → Nat → Nat → Nat × Nat × Nat
  | 0, y, n => (y, goM (isLeap y) 11 1 n)
  | f + 1, y, n =>
    if n < daysInYear y then (y, goM (isLeap y) 11 1 n)
    else goY f (y + 1) (n - daysInYear y)

/-- Inverse of `toDays`: day number (0-based from 0001-01-01) to `(y, m, d)`.
A 400-year Gregorian era is exactly 146097 days, so the day number is first
reduced modulo one era and the year search walks at most 400 years. -/
def fromDays (n : Nat) : Nat × Nat × Nat :=
  goY 401 (400 * (n / 146097) + 1) (n % 146097)

/-- A Python `datetime` value's wall-clock components (microseconds are not
used anywhere in this code base and are omitted). -/
structure PyDT where
  y : Nat
  m : Nat
  d : Nat
  h : Nat
  mi : Nat
  sec : Nat
  deriving DecidableEq, Repr

/-- Validity of components exactly as `datetime(...)` enforces it. -/
def ValidDT (L : PyDT) : Prop :=
  1 ≤ L.y ∧ L.y ≤ 9999 ∧ 1 ≤ L.m ∧ L.m ≤ 12 ∧ 1 ≤ L.d ∧ L.d ≤ daysInMonth L.y L.m ∧
    L.h ≤ 23 ∧ L.mi ≤ 59 ∧ L.sec ≤ 59

instance (L : PyDT) : Decidable (ValidDT L) := by unfold ValidDT; infer_instance

/-- Seconds since 0001-01-01 00:00:00 of the wall-clock components. -/
def toSec (L : PyDT) : Nat :=
  86400 * toDays L.y L.m L.d + 3600 * L.h + 60 * L.mi + L.sec

/-- Inverse of `toSec`. -/
def fromSec (n : Nat) : PyDT :=
  let t := n % 86400
  let c := fromDays (n / 86400)
  ⟨c.1, c.2.1, c.2.2, t / 3600, t % 3600 / 60, t % 60⟩

/-- Largest second count representable by a Python `datetime`
(9999-12-31 23:59:59; the `.999999` microseconds are irrelevant at the
whole-second granularity used by this code). -/
def maxSec : Nat := toSec ⟨9999, 12, 31, 23, 59, 59⟩

/-! ## The Europe/Athens model (current EU rule, see module docstring) -/

/-- Day of the last Sunday of month `m` (March or October, both 31 days long)
of year `y`.  Day number 0 (= 0001-01-01) is a Monday in the proleptic
Gregorian calendar, so a day number `n` is a Sunday iff `n % 7 = 6`. -/
def lastSun (y m : Nat) : Nat := 31 - ((toDays y m 31 + 1) % 7)

/-- UTC second count of the spring transition (last Sunday of March, 01:00 UTC). -/
def marchMarkUTC (y : Nat) : Nat := 86400 * toDays y 3 (lastSun y 3) + 3600

/-- UTC second count of the autumn transition (last Sunday of October, 01:00 UTC). -/
def octMarkUTC (y : Nat) : Nat := 86400 * toDays y 10 (lastSun y 10) + 3600

/-- UTC offset (in minutes) of Europe/Athens at the UTC instant `t`
(seconds since 0001-01-01 00:00:00 UTC): +03:00 between the two yearly
transition instants, +02:00 otherwise. -/
def athensOffsetUTC (t : Nat) : Int :=
  let y := (fromDays (t / 86400)).1
  if marchMarkUTC y ≤ t ∧ t < octMarkUTC y then 180 else 120

/-- UTC offset (in minutes) attached by `replace(tzinfo=ZoneInfo("Europe/Athens"))`
to the naive wall-clock components `L`, with `fold=0` (PEP 495): +03:00 for
wall clocks in `[last Sunday of March 04:00, last Sunday of October 04:00)`,
+02:00 otherwise.  In particular a wall clock inside the nonexistent
spring-forward gap `[03:00, 04:00)` receives the pre-transition offset +02:00. -/
def athensLocalOffset (L : PyDT) : Int :=
  if 86400 * toDays L.y 3 (lastSun L.y 3) + 14400 ≤ toSec L ∧
      toSec L < 86400 * toDays L.y 10 (lastSun L.y 10) + 14400 then 180 else 120

/-- Wall-clock components that do not exist in the modelled Europe/Athens zone:
the spring-forward gap `[03:00, 04:00)` on the last Sunday of March. -/
def InSpringGap (L : PyDT) : Prop :=
  86400 * toDays L.y 3 (lastSun L.y 3) + 10800 ≤ toSec L ∧
    toSec L < 86400 * toDays L.y 3 (lastSun L.y 3) + 14400

instance (L : PyDT) : Decidable (InSpringGap L) := by unfold InSpringGap; infer_instance

/-! ## Python string primitives (on `List Char`) -/

/-- The whitespace class of Python's `str.strip()` / `str.split()` (ASCII part;
the rare non-ASCII Unicode spaces Python also recognizes are not modelled). -/
def pyIsSpace (c : Char) : Bool :=
  c = ' ' || c = '\t' || c = '\n' || c = '\r' || c = '\x0b' || c = '\x0c'

/-- Python `str.strip()`. -/
def pyStrip (l : List Char) : List Char :=
  ((l.dropWhile pyIsSpace).reverse.dropWhile pyIsSpace).reverse

/-- Whitespace-run split, as Python `str.split()` with no argument:
maximal runs of non-whitespace characters, empty tokens never produced. -/
def wsSplitGo (cur : List Char) (acc : List (List Char)) : List Char → List (List Char)
  | [] => if cur = [] then acc.reverse else (cur.reverse :: acc).reverse
  | c :: rest =>
    if pyIsSpace c then
      if cur = [] then wsSplitGo [] acc rest else wsSplitGo [] (cur.reverse :: acc) rest
    else wsSplitGo (c :: cur) acc rest

/-- Python `s.split()` (split on whitespace runs, dropping empty tokens). -/
def wsSplit (l : List Char) : List (List Char) := wsSplitGo [] [] l

/-- Split on a single separator character, as Python `s.split(sep)`:
always yields at least one (possibly empty) token. -/
def splitChar (sep : Char) : List Char → List (List Char)
  | [] => [[]]
  | c :: rest =>
    let r := splitChar sep rest
    if c = sep then [] :: r
    else
      match r with
      | [] => [[c]]
      | t :: ts => (c :: t) :: ts

/-- Python `str.isdigit()` restricted to ASCII digits (the extra Unicode digit
classes `str.isdigit` accepts never occur in this CSV data and are not modelled). -/
def isdigitL (l : List Char) : Bool := l ≠ [] && l.all Char.isDigit

/-- Numeric value of a list of ASCII digits. -/
def natOfDigits (l : List Char) : Nat :=
  l.foldl (fun acc c => 10 * acc + (c.toNat - 48)) 0

/-- Digit character for a value `< 10`. -/
def digitChar (n : Nat) : Char := Char.ofNat (48 + n)

/-- Two-digit zero-padded decimal rendering (all uses have `n < 100`). -/
def pad2 (n : Nat) : List Char := [digitChar (n / 10 % 10), digitChar (n % 10)]

/-- Four-digit zero-padded decimal rendering (all uses have `n < 10000`). -/
def pad4 (n : Nat) : List Char :=
  [digitChar (n / 1000 % 10), digitChar (n / 100 % 10), digitChar (n / 10 % 10),
    digitChar (n % 10)]

/-- Tail of an acceptable digit body for Python `int(...)`: after an initial
digit, digits may continue, with single underscores strictly between digits. -/
def pyIntTail : List Char → Bool
  | [] => true
  | '_' :: rest =>
    match rest with
    | [] => false
    | d :: r => d.isDigit && pyIntTail r
  | c :: r => c.isDigit && pyIntTail r

/-- Acceptable digit body for Python `int(...)`: a digit followed by digits
with single underscores strictly between digits. -/
def pyIntBody : List Char → Bool
  | [] => false
  | c :: r => c.isDigit && pyIntTail r

/-- Python `int(str)`: optional surrounding whitespace, optional sign, digits
with single underscores between digits; `none` models a raised `ValueError`. -/
def pyInt (l : List Char) : Option Int :=
  let t := pyStrip l
  match t with
  | '+' :: r => if pyIntBody r then some (natOfDigits (r.filter (· ≠ '_'))) else none
  | '-' :: r => if pyIntBody r then some (-(natOfDigits (r.filter (· ≠ '_')) : Int)) else none
  | r => if pyIntBody r then some (natOfDigits (r.filter (· ≠ '_'))) else none

/-! ## ISO serialization and parsing -/

/-- Serialization of a UTC offset given in minutes, as `datetime.isoformat`
prints a whole-minute `tzinfo` offset: `±HH:MM`. -/
def offChars (o : Int) : List Char :=
  (if o < 0 then '-' else '+') :: pad2 (o.natAbs / 60) ++ ':' :: pad2 (o.natAbs % 60)

/-- `dt.isoformat(sep=' ')` for a whole-second aware datetime with a
whole-minute offset: `YYYY-MM-DD HH:MM:SS±HH:MM`. -/
def isoChars (L : PyDT) (o : Int) : List Char :=
  pad4 L.y ++ '-' :: pad2 L.m ++ '-' :: pad2 L.d ++ ' ' ::
    pad2 L.h ++ ':' :: pad2 L.mi ++ ':' :: pad2 L.sec ++ offChars o

/-- `datetime.fromisoformat` restricted to the only shape that reaches it in
this code base: a full `YYYY-MM-DD?HH:MM:SS±HH:MM` string (25 characters,
any single separator character at position 10, whole-minute offset).  The
many other layouts Python 3.11+ would accept (missing time, fractional
seconds, `Z`, offsets with seconds) can never be produced by
`_try_parse_datetime` nor pass `_is_iso_with_tz`, and are parsed to `none`
here, which the callers treat exactly as a raised `ValueError`.  Component
range checks are the ones `datetime(...)`/`timezone(...)` perform. -/
def isoShapeParse : List Char → Option (PyDT × Int)
  | [y1, y2, y3, y4, '-', m1, m2, '-', d1, d2, _sep, h1, h2, ':', i1, i2, ':',
      s1, s2, sg, o1, o2, ':', o3, o4] =>
    if ([y1, y2, y3, y4, m1, m2, d1, d2, h1, h2, i1, i2, s1, s2, o1, o2, o3, o4].all
          Char.isDigit) && (sg = '+' || sg = '-') then
      let y := natOfDigits [y1, y2, y3, y4]
      let m := natOfDigits [m1, m2]
      let d := natOfDigits [d1, d2]
      let h := natOfDigits [h1, h2]
      let mi := natOfDigits [i1, i2]
      let s := natOfDigits [s1, s2]
      let oAbs := 60 * natOfDigits [o1, o2] + natOfDigits [o3, o4]
      if 1 ≤ y ∧ 1 ≤ m ∧ m ≤ 12 ∧ 1 ≤ d ∧ d ≤ daysInMonth y m ∧ h ≤ 23 ∧ mi ≤ 59 ∧
          s ≤ 59 ∧ oAbs < 1440 then
        some (⟨y, m, d, h, mi, s⟩, if sg = '-' then -(oAbs : Int) else (oAbs : Int))
      else none
    else none
  | _ => none

/-- The UTC instant (seconds since 0001-01-01, as an integer that may
underflow the representable range) of an aware datetime with wall clock `L`
and offset `o` minutes. -/
def utcOfAware (L : PyDT) (o : Int) : Int := (toSec L : Int) - 60 * o

/-- `dt.astimezone(ZoneInfo("Europe/Athens"))` on an aware datetime with
wall clock `L` and offset `o` minutes: subtract the offset to get the UTC
instant, look up the Athens offset there, and re-add it.  `none` models the
`OverflowError` Python raises when either the UTC instant or the converted
local time falls outside the supported `datetime` range. -/
def astimezoneAthens (L : PyDT) (o : Int) : Option (PyDT × Int) :=
  if 0 ≤ utcOfAware L o ∧ utcOfAware L o ≤ (maxSec : Int) then
    if 0 ≤ utcOfAware L o + 60 * athensOffsetUTC (utcOfAware L o).toNat ∧
        utcOfAware L o + 60 * athensOffsetUTC (utcOfAware L o).toNat ≤ (maxSec : Int) then
      some (fromSec (utcOfAware L o + 60 * athensOffsetUTC (utcOfAware L o).toNat).toNat,
        athensOffsetUTC (utcOfAware L o).toNat)
    else none
  else none

/-! ## `_try_parse_datetime` (fetch_latest.py lines 14-71; the generation-1
`corrector.py` lines 13-54 carry a line-for-line identical copy, so one
embedding serves both) -/

/-- The `_strip_angles` helper: `str(x).strip()`, remove every `<` and `>`,
strip again.  (The `x is None` branch cannot trigger: every value fed to it
is a CSV string field.) -/
def stripAngles (x : List Char) : List Char :=
  pyStrip ((pyStrip x).filter (fun c => c ≠ '<' && c ≠ '>'))

/-- `f"{date_clean} {hour_clean}".strip()`. -/
def sCombined (dateStr hourStr : String) : List Char :=
  pyStrip (stripAngles dateStr.data ++ ' ' :: stripAngles hourStr.data)

/-- The bare-hour normalization step: if `s.split()` has exactly two tokens
and the second is all digits, append `":00"` to it and rejoin with a single
space.  Returns the (possibly mutated) parts list and string. -/
def hourNorm (s : List Char) : List (List Char) × List Char :=
  match wsSplit s with
  | [a, b] =>
    if isdigitL b then ([a, b ++ [':', '0', '0']], a ++ ' ' :: (b ++ [':', '0', '0']))
    else ([a, b], s)
  | parts => (parts, s)

/-- `%d` / `%m` / `%H` / `%M` token: one or two ASCII digits (range checks are
applied afterwards by `mkValid`, matching the conjunction of the `strptime`
pattern constraints and the `datetime` constructor checks). -/
def tok12 (t : List Char) : Option Nat :=
  if isdigitL t && t.length ≤ 2 then some (natOfDigits t) else none

/-- `%Y` token: exactly four ASCII digits. -/
def tok4 (t : List Char) : Option Nat :=
  if isdigitL t && t.length = 4 then some (natOfDigits t) else none

/-- The combined component validation performed by a successful
`datetime.strptime` call (pattern ranges plus constructor checks). -/
def mkValid (y m d h mi : Nat) : Option PyDT :=
  if 1 ≤ y ∧ y ≤ 9999 ∧ 1 ≤ m ∧ m ≤ 12 ∧ 1 ≤ d ∧ d ≤ daysInMonth y m ∧
      h ≤ 23 ∧ mi ≤ 59 then
    some ⟨y, m, d, h, mi, 0⟩
  else none

/-- `strptime(s, "%d/%m/%Y %H:%M")`. -/
def fmtDMYhm (s : List Char) : Option PyDT :=
  match wsSplit s with
  | [t1, t2] =>
    match splitChar '/' t1, splitChar ':' t2 with
    | [ds, ms, ys], [hs, mins] =>
      match tok12 ds, tok12 ms, tok4 ys, tok12 hs, tok12 mins with
      | some d, some m, some y, some h, some mi => mkValid y m d h mi
      | _, _, _, _, _ => none
    | _, _ => none
  | _ => none

/-- `strptime(s, "%d/%m/%Y %H")`. -/
def fmtDMYh (s : List Char) : Option PyDT :=
  match wsSplit s with
  | [t1, t2] =>
    match splitChar '/' t1 with
    | [ds, ms, ys] =>
      match tok12 ds, tok12 ms, tok4 ys, tok12 t2 with
      | some d, some m, some y, some h => mkValid y m d h 0
      | _, _, _, _ => none
    | _ => none
  | _ => none

/-- `strptime(s, "%Y-%m-%d %H:%M")`. -/
def fmtYMDhm (s : List Char) : Option PyDT :=
  match wsSplit s with
  | [t1, t2] =>
    match splitChar '-' t1, splitChar ':' t2 with
    | [ys, ms, ds], [hs, mins] =>
      match tok4 ys, tok12 ms, tok12 ds, tok12 hs, tok12 mins with
      | some y, some m, some d, some h, some mi => mkValid y m d h mi
      | _, _, _, _, _ => none
    | _, _ => none
  | _ => none

/-- `strptime(s, "%Y-%m-%d %H")`. -/
def fmtYMDh (s : List Char) : Option PyDT :=
  match wsSplit s with
  | [t1, t2] =>
    match splitChar '-' t1 with
    | [ys, ms, ds] =>
      match tok4 ys, tok12 ms, tok12 ds, tok12 t2 with
      | some y, some m, some d, some h => mkValid y m d h 0
      | _, _, _, _ => none
    | _ => none
  | _ => none

/-- The `for f in fmts` loop: the four formats tried in order, first match wins. -/
def tryFormats (s : List Char) : Option PyDT :=
  match fmtDMYhm s with
  | some L => some L
  | none =>
    match fmtDMYh s with
    | some L => some L
    | none =>
      match fmtYMDhm s with
      | some L => some L
      | none => fmtYMDh s

/-- The loose `YYYYMMDD` fallback block: `parts` is the (possibly mutated)
token list; `none` models the `except`-swallowed failure (including the
`IndexError` on an empty token list and any `int`/`datetime` `ValueError`). -/
def looseFallback (parts : List (List Char)) : Option (List Char) :=
  match parts with
  | [] => none
  | dp :: rest =>
    let hp := match rest with | [] => ['0'] | x :: _ => x
    if dp.length = 8 && isdigitL dp then
      let y := natOfDigits (dp.take 4)
      let m := natOfDigits ((dp.drop 4).take 2)
      let d := natOfDigits (dp.drop 6)
      let hOpt := if hp = [] then some (0 : Int) else pyInt ((splitChar ':' hp).headD [])
      match hOpt with
      | none => none
      | some h =>
        if 1 ≤ y ∧ 1 ≤ m ∧ m ≤ 12 ∧ 1 ≤ d ∧ d ≤ daysInMonth y m ∧ 0 ≤ h ∧ h ≤ 23 then
          let L : PyDT := ⟨y, m, d, h.toNat, 0, 0⟩
          some (isoChars L (athensLocalOffset L))
        else none
    else none

/-- `_try_parse_datetime(date_str, hour_str)`: strip angle brackets and
whitespace, combine, normalize a bare-integer hour, try the four formats
(localizing a match to Europe/Athens and serializing it), then the loose
`YYYYMMDD` fallback, and finally fall through to the cleaned string itself.
Every exception in the source is caught, so the model is a total function. -/
def tryParseDatetime (dateStr hourStr : String) : String :=
  if sCombined dateStr hourStr = [] then String.mk (sCombined dateStr hourStr)
  else
    match tryFormats (hourNorm (sCombined dateStr hourStr)).2 with
    | some L => String.mk (isoChars L (athensLocalOffset L))
    | none =>
      match looseFallback (hourNorm (sCombined dateStr hourStr)).1 with
      | some out => String.mk out
      | none => String.mk (hourNorm (sCombined dateStr hourStr)).2

/-! ## `_normalize_iso_with_tz` and `_is_iso_with_tz` (corrector_v2.py) -/

/-- `_is_iso_with_tz`: `re.match(r"^\d{4}-\d{2}-\d{2} \d{2}:\d{2}:\d{2}[+-]\d{2}:\d{2}$", s)`.
Note `$` also matches just before a single trailing newline, which
`re.match` therefore accepts. -/
def isIsoWithTz (s : String) : Bool :=
  let body := match s.data.getLast? with
    | some '\n' => s.data.dropLast
    | _ => s.data
  match body with
  | [y1, y2, y3, y4, '-', m1, m2, '-', d1, d2, ' ', h1, h2, ':', i1, i2, ':',
      s1, s2, sg, o1, o2, ':', o3, o4] =>
    ([y1, y2, y3, y4, m1, m2, d1, d2, h1, h2, i1, i2, s1, s2, o1, o2, o3, o4].all
        Char.isDigit) && (sg = '+' || sg = '-')
  | _ => false

/-- `_normalize_iso_with_tz(s)`: parse as ISO-with-offset and re-express in
Europe/Athens; a parse failure (both with the space and with the
`'T'`-substituted separator, both covered by the separator-agnostic
`isoShapeParse`) returns the original string.  The aware branch of the
source is the only reachable one here because the modelled parse subset
always carries an offset.  The outer `none` models the uncaught
`OverflowError` that `astimezone` can raise near the `datetime` range limits. -/
def normalizeIsoWithTz (s : String) : Option String :=
  match isoShapeParse s.data with
  | none => some s
  | some (L, o) =>
    (astimezoneAthens L o).map fun r => String.mk (isoChars r.1 r.2)

/-! ## Row-level operations (fetch_latest.py) -/

/-- The placeholder test `x in ('', 'None', 'none')` used for trailing
columns.  (The generation-1 corrector's variant also lists the Python
`None` literal, which a CSV-read string field can never be.) -/
def isPlaceholder (s : String) : Bool := s = "" || s = "None" || s = "none"

/-- Drop the trailing field if the flag is set and it is a placeholder:
`if drop_right and r: last = r[-1]; if last in ('', 'None', 'none'): r = r[:-1]`. -/
def dropTrailing (dropRight : Bool) (r : List String) : List String :=
  if dropRight && !r.isEmpty && isPlaceholder (r.getLastD "") then r.dropLast else r

/-- `_processed_row_from_raw(row, drop_right)`: merge the date (index 1) and
hour (index 2) fields through `_try_parse_datetime`, writing the result at
index 1 (inserting it when the row is a single field), deleting the old hour
field, and optionally dropping a trailing placeholder. -/
def processedRowFromRaw (row : List String) (dropRight : Bool) : List String :=
  match row with
  | [] => []
  | _ =>
    let date := row.getD 1 ""
    let hour := row.getD 2 ""
    let combined := tryParseDatetime date hour
    let r := if row.length > 1 then row.set 1 combined else row ++ [combined]
    let r := if r.length > 2 then r.eraseIdx 2 else r
    dropTrailing dropRight r

/-- `_keys_from_existing_row(row)`: the identity-key set of a stored row.
If the row has ≥ 5 fields, its first five fields form one key (Layout A);
if it has ≥ 4 fields, field 1 is split as a combined datetime
(`replace('T', ' ').split()`) into date and hour components for a second key
(Layout B/C).  The Python `set` is modelled as a list; only membership is
ever used. -/
def keysFromExistingRow (row : List String) : List (List String) :=
  match row with
  | [] => []
  | _ =>
    let sep := if row.length ≥ 5 then [row.take 5] else []
    if row.length ≥ 4 then
      let dtParts := wsSplit (((row.getD 1 "").data).map fun c => if c = 'T' then ' ' else c)
      let datePart := String.mk (dtParts.headD [])
      let hourPart := String.mk ((dtParts.drop 1).headD [])
      sep ++ [[row.getD 0 "", datePart, hourPart, row.getD 2 "", row.getD 3 ""]]
    else sep

/-- The drop-right flag detection: `bool(header and header[-1] in ('', 'None', 'none'))`. -/
def dropRightOf (header : List String) : Bool :=
  !header.isEmpty && isPlaceholder (header.getLastD "")

/-- The canonical processed header: rename position 1 to `datetime`, delete
position 2 (when the header has more than two fields), then drop a trailing
placeholder when flagged.  Shared by the ingester and both correctors, whose
sources repeat the same lines. -/
def mkProcHeader (header : List String) (dropRight : Bool) : List String :=
  let ph := if header.length > 2 then (header.set 1 "datetime").eraseIdx 2 else header
  dropTrailing dropRight ph

/-! ## `fetch_latest` (fetch_latest.py lines 132-193)

The HTTP fetch and CSV (de)serialization are I/O glue; the function below
is the pure transformation from the parsed feed rows and the current store
contents (`none` = the store file does not exist) to the new store contents.
A network failure aborts before this transformation runs. -/

/-- The raw-feed identity key of a fetched row: its first five fields, or
`none` when the row has fewer than five. -/
def rawKey (r : List String) : Option (List String) :=
  if r.length ≥ 5 then some (r.take 5) else none

/-- The list of processed new rows accumulated by the `for r in rows` loop:
rows whose raw key is absent (or undefined) are projected and kept. -/
def newProcessedRows (rows : List (List String)) (existingKeys : List (List String))
    (dropRight : Bool) : List (List String) :=
  (rows.filter fun r =>
      match rawKey r with
      | none => true
      | some k => !existingKeys.contains k).map
    (processedRowFromRaw · dropRight)

/-- `fetch_latest()` as a pure function of the parsed feed and the store
contents.  An empty feed returns immediately; otherwise the existing
identity-key set is built from every stored row, new rows are filtered and
projected, and appended in one batch (writing the processed header first
when the store file did not exist). -/
def fetchLatest (feed : List (List String)) (store : Option (List (List String))) :
    Option (List (List String)) :=
  match feed with
  | [] => store
  | header :: rows =>
    let dr := dropRightOf header
    let existingKeys := ((store.getD []).map keysFromExistingRow).flatten
    let newRows := newProcessedRows rows existingKeys dr
    if newRows.isEmpty then store
    else
      match store with
      | none => some (mkProcHeader header dr :: newRows)
      | some rs => some (rs ++ newRows)

/-! ## `correct_v2` (corrector_v2.py lines 44-100) -/

/-- The final state of the store path and backup path after a corrector run:
`store` is the store file's contents (`none` = absent), `backup` the backup
file's contents (`none` = no backup was written). -/
structure FileState where
  store : Option (List (List String))
  backup : Option (List (List String))
  deriving DecidableEq, Repr

/-- One iteration of the `for r in rows[1:]` loop of `correct_v2`: strip the
trailing placeholder when flagged, then, if the row has more than one field
and field 1 matches the strict ISO shape, replace field 1 with its
normalization.  Returns the output row (`none` = the uncaught exception
`_normalize_iso_with_tz` can raise) and whether `touched` was incremented. -/
def v2Row (dropRight : Bool) (r : List String) : Option (List String) × Bool :=
  if (dropTrailing dropRight r).length > 1
      && isIsoWithTz ((dropTrailing dropRight r).getD 1 "") then
    ((normalizeIsoWithTz ((dropTrailing dropRight r).getD 1 "")).map
        fun v => (dropTrailing dropRight r).set 1 v,
      true)
  else (some (dropTrailing dropRight r), false)

/-- The whole `correct_v2` row loop: output rows and the `touched` count;
`none` when an iteration raises. -/
def v2Process (dropRight : Bool) : List (List String) → Option (List (List String) × Nat)
  | [] => some ([], 0)
  | r :: rest =>
    match (v2Row dropRight r).1 with
    | none => none
    | some row =>
      match v2Process dropRight rest with
      | none => none
      | some (rs, n) => some (row :: rs, n + if (v2Row dropRight r).2 then 1 else 0)

/-- `correct_v2(in_path)` as a pure function of the store contents.
Missing or empty store: report and return, nothing touched.  Otherwise run
the row loop; if `touched == 0` report and return, else back up the original
contents and write the processed header plus the corrected rows.  The outer
`none` models the run dying on an uncaught exception from the row loop
(which happens before any file is renamed or written, so the on-disk state
is unchanged in that case). -/
def correctV2 (store : Option (List (List String))) : Option FileState :=
  match store with
  | none => some ⟨none, none⟩
  | some [] => some ⟨some [], none⟩
  | some (header :: rows) =>
    let dr := dropRightOf header
    match v2Process dr rows with
    | none => none
    | some (out, touched) =>
      if touched = 0 then some ⟨some (header :: rows), none⟩
      else some ⟨some (mkProcHeader header dr :: out), some (header :: rows)⟩

/-! ## `correct_file` (generation-1 corrector, corrector.py lines 77-116) -/

/-- `correct_file(in_file, out_file, backup_file)` as a pure function of the
store contents.  Its `_processed_row_from_raw` and `_try_parse_datetime`
(corrector.py lines 13-74) are line-for-line identical to the
`fetch_latest.py` copies, so the embeddings above serve both.  If the store
file is absent or has no rows, it reports and returns with nothing touched;
otherwise it detects the trailing-placeholder flag from the header, builds
the processed header exactly as ingestion does, projects every data row,
renames the original store to the fixed backup name, and writes the header
plus projected rows back to the store path (via the `toll_data_fixed.csv`
temporary and a final rename — pure file plumbing).  The `os.replace`
failure branch is an external I/O failure (like disk errors elsewhere) and
is outside the model, which describes the completed run. -/
def correctFile (store : Option (List (List String))) : FileState :=
  match store with
  | none => ⟨none, none⟩
  | some [] => ⟨some [], none⟩
  | some (header :: rows) =>
    let dr := dropRightOf header
    ⟨some (mkProcHeader header dr :: rows.map (processedRowFromRaw · dr)),
      some (header :: rows)⟩

/-! ## Claims C1, C2: cross-format identity keys and re-run idempotence -/

/-- C1. Claim: a Layout-A row and the equivalent Layout-B/C row (the very row
`fetch_latest` writes for that same observation) always share at least one
identity key under `_keys_from_existing_row`.  The code refutes this — and
thereby its own docstring ("so duplicate detection works across formats"):
the Layout-A keys keep the raw `01/06/2025` / `15` fields, while the
combined row's key splits the canonical ISO timestamp into `2025-06-01` and
`15:00:00+03:00`, so the two key sets are disjoint. -/
theorem c1_cross_format_keys_disjoint :
    processedRowFromRaw ["A1", "01/06/2025", "15", "St1", "N"] false
        = ["A1", "2025-06-01 15:00:00+03:00", "St1", "N"] ∧
      ∀ k ∈ keysFromExistingRow ["A1", "01/06/2025", "15", "St1", "N"],
        k ∉ keysFromExistingRow ["A1", "2025-06-01 15:00:00+03:00", "St1", "N"] := by
  decide

/-- C2. Claim: running `fetch_latest` a second time on an identical feed
response appends zero rows.  The code refutes this — and its own docstring
("previously-stored rows (either format) won't be duplicated"): after a
first run ingests the feed row, the stored combined row's identity keys
never contain the raw first-5-column key, so the second run appends the
same observation again. -/
theorem c2_second_run_duplicates :
    fetchLatest
        [["motorway", "date", "hour", "station", "direction"],
          ["A1", "01/06/2025", "15", "St1", "N"]] none
      = some [["motorway", "datetime", "station", "direction"],
          ["A1", "2025-06-01 15:00:00+03:00", "St1", "N"]] ∧
    fetchLatest
        [["motorway", "date", "hour", "station", "direction"],
          ["A1", "01/06/2025", "15", "St1", "N"]]
        (some [["motorway", "datetime", "station", "direction"],
          ["A1", "2025-06-01 15:00:00+03:00", "St1", "N"]])
      = some [["motorway", "datetime", "station", "direction"],
          ["A1", "2025-06-01 15:00:00+03:00", "St1", "N"],
          ["A1", "2025-06-01 15:00:00+03:00", "St1", "N"]] := by
  decide

/-! ## Claim C4: the failure pass-through of `_try_parse_datetime` -/

/-- C4, counterexample.  The claim says an unparseable input comes back as
the cleaned concatenation of the two inputs (brackets and surrounding
whitespace stripped).  With a bare-integer hour the function first appends
`":00"` to the hour token, so the returned string is not the cleaned
concatenation. -/
theorem c4_passthrough_counterexample :
    tryParseDatetime "ab/cd/2025" "15" = "ab/cd/2025 15:00" ∧
      String.mk (sCombined "ab/cd/2025" "15") = "ab/cd/2025 15" ∧
      ("ab/cd/2025 15:00" : String) ≠ "ab/cd/2025 15" := by
  decide

/-- C4, amended. `_try_parse_datetime` never raises (it is modelled by a
total function: every exception in the source is caught), and whenever no
recognized format matches and the loose `YYYYMMDD` fallback also fails, it
returns the cleaned concatenation of the two inputs *after* the bare-hour
normalization step (a bracket- and whitespace-stripped join, with `":00"`
appended to a bare all-digit hour token). -/
theorem c4_failure_passthrough (dateStr hourStr : String)
    (h1 : tryFormats (hourNorm (sCombined dateStr hourStr)).2 = none)
    (h2 : looseFallback (hourNorm (sCombined dateStr hourStr)).1 = none) :
    tryParseDatetime dateStr hourStr
      = String.mk (hourNorm (sCombined dateStr hourStr)).2 := by
  unfold tryParseDatetime
  by_cases hs : sCombined dateStr hourStr = []
  · rw [hs]; rfl
  · simp only [hs, if_false, h1, h2]

/-- C4, witness for the amended theorem at a concrete malformed input. -/
theorem c4_failure_passthrough_witness :
    tryParseDatetime "ab/cd/2025" "15"
      = String.mk (hourNorm (sCombined "ab/cd/2025" "15")).2 :=
  c4_failure_passthrough "ab/cd/2025" "15" (by decide) (by decide)

/-! ## Claim C5: the generation-1 corrector on the spec's concrete store -/

/-- C5. The generation-1 corrector (`correct_file`, corrector.py lines
77-116) on the store with header
`[motorway,date,hour,station,direction,'']` and the single row
`[A1,01/06/2025,15,St1,N,'']` produces the canonical header
`[motorway,datetime,station,direction]` and the row
`[A1,"2025-06-01 15:00:00+03:00",St1,N]` (Athens summer offset +03:00),
with a backup holding the original contents. -/
theorem c5_gen1_concrete_store :
    correctFile (some [["motorway", "date", "hour", "station", "direction", ""],
        ["A1", "01/06/2025", "15", "St1", "N", ""]])
      = ⟨some [["motorway", "datetime", "station", "direction"],
            ["A1", "2025-06-01 15:00:00+03:00", "St1", "N"]],
          some [["motorway", "date", "hour", "station", "direction", ""],
            ["A1", "01/06/2025", "15", "St1", "N", ""]]⟩ := by
  decide

/-! ## Claim C8: absent or empty store -/

/-- C8. When the store file is absent or has no rows at all, both correctors
report and return without modifying the store and without creating any
backup file. -/
theorem c8_absent_or_empty_store (st : Option (List (List String)))
    (h : st = none ∨ st = some []) :
    correctFile st = ⟨st, none⟩ ∧ correctV2 st = some ⟨st, none⟩ := by
  rcases h with h | h <;> subst h <;> exact ⟨rfl, rfl⟩

/-- C8, witness at the absent-store state. -/
theorem c8_absent_or_empty_store_witness :
    correctFile none = ⟨none, none⟩ ∧ correctV2 none = some ⟨none, none⟩ :=
  c8_absent_or_empty_store none (Or.inl rfl)

/-! ## Claim C9: rows shorter than five fields are never deduplicated -/

/-- C9. A fetched raw row with fewer than five columns gets no identity key
(`key is None`), so `fetch_latest` treats it as new on every run: it is
projected and appended regardless of the store contents. -/
theorem c9_short_row_always_appended (header : List String)
    (rows : List (List String)) (store : Option (List (List String)))
    (r : List String) (hr : r ∈ rows) (hlen : r.length < 5) :
    processedRowFromRaw r (dropRightOf header) ∈
        newProcessedRows rows (((store.getD []).map keysFromExistingRow).flatten)
          (dropRightOf header) ∧
      ∃ rs, fetchLatest (header :: rows) store = some rs ∧
        processedRowFromRaw r (dropRightOf header) ∈ rs := by
  have hkey : rawKey r = none := by
    unfold rawKey
    simp only [ite_eq_right_iff]
    intro h5
    omega
  have hmem : processedRowFromRaw r (dropRightOf header) ∈
      newProcessedRows rows (((store.getD []).map keysFromExistingRow).flatten)
        (dropRightOf header) := by
    unfold newProcessedRows
    refine List.mem_map_of_mem _ ?_
    refine List.mem_filter.mpr ⟨hr, ?_⟩
    rw [hkey]
  refine ⟨hmem, ?_⟩
  have hne : (newProcessedRows rows (((store.getD []).map keysFromExistingRow).flatten)
      (dropRightOf header)).isEmpty = false := by
    cases hE : (newProcessedRows rows (((store.getD []).map keysFromExistingRow).flatten)
        (dropRightOf header)).isEmpty
    · rfl
    · rw [List.isEmpty_iff] at hE
      rw [hE] at hmem
      exact absurd hmem (List.not_mem_nil _)
  simp only [fetchLatest, hne, Bool.false_eq_true, if_false]
  cases store with
  | none =>
    exact ⟨_, rfl, List.mem_cons_of_mem _ hmem⟩
  | some rs =>
    exact ⟨_, rfl, List.mem_append_right _ hmem⟩

/-- C9, witness: a two-field feed row is appended even though the store
already holds its projection. -/
theorem c9_short_row_always_appended_witness :
    processedRowFromRaw ["A1", "x"] (dropRightOf ["motorway", "date", "hour"]) ∈
        newProcessedRows [["A1", "x"]]
          (((some [["A1", "x ", "y"]] |>.getD []).map keysFromExistingRow).flatten)
          (dropRightOf ["motorway", "date", "hour"]) ∧
      ∃ rs, fetchLatest (["motorway", "date", "hour"] :: [["A1", "x"]])
          (some [["A1", "x ", "y"]]) = some rs ∧
        processedRowFromRaw ["A1", "x"] (dropRightOf ["motorway", "date", "hour"]) ∈ rs :=
  c9_short_row_always_appended ["motorway", "date", "hour"] [["A1", "x"]]
    (some [["A1", "x ", "y"]]) ["A1", "x"] (by simp) (by decide)

/-! ## The `correct_v2` loop: helper lemmas -/

/-- A trailing-placeholder literal never matches the strict ISO shape. -/
theorem isIsoWithTz_of_placeholder (s : String) (h : isPlaceholder s = true) :
    isIsoWithTz s = false := by
  unfold isPlaceholder at h
  simp only [Bool.or_eq_true, decide_eq_true_eq] at h
  rcases h with (h | h) | h <;> subst h <;> decide

/-- Stripping the trailing placeholder does not change whether a row's
position-1 field matches the strict ISO shape (the only row shapes where the
strip touches position 1 have a placeholder there, which never matches). -/
theorem dropTrailing_shape (dr : Bool) (r : List String) :
    (decide ((dropTrailing dr r).length > 1)
        && isIsoWithTz ((dropTrailing dr r).getD 1 ""))
      = (decide (r.length > 1) && isIsoWithTz (r.getD 1 "")) := by
  unfold dropTrailing
  split
  case isFalse h => rfl
  case isTrue h =>
    simp only [Bool.and_eq_true, Bool.not_eq_true'] at h
    rcases r with _ | ⟨a, _ | ⟨b, _ | ⟨c, rest⟩⟩⟩
    · rfl
    · simp
    · have hb : isPlaceholder b = true := by simpa using h.2
      simp [isIsoWithTz_of_placeholder b hb]
    · have : (a :: b :: c :: rest).dropLast = a :: b :: (c :: rest).dropLast := by
        simp [List.dropLast]
      rw [this]
      simp

/-- The Boolean recorded by one loop iteration is exactly "the raw row has
more than one field and its position-1 field matches the strict shape". -/
theorem v2Row_touch (dr : Bool) (r : List String) :
    (v2Row dr r).2 = (decide (r.length > 1) && isIsoWithTz (r.getD 1 "")) := by
  rw [← dropTrailing_shape dr r]
  unfold v2Row
  cases hc : (decide ((dropTrailing dr r).length > 1)
      && isIsoWithTz ((dropTrailing dr r).getD 1 "")) <;> simp [hc]

/-- A non-matching row passes through one loop iteration as its stripped self. -/
theorem v2Row_no_match (dr : Bool) (r : List String)
    (h : (decide (r.length > 1) && isIsoWithTz (r.getD 1 "")) = false) :
    v2Row dr r = (some (dropTrailing dr r), false) := by
  rw [← dropTrailing_shape dr r] at h
  unfold v2Row
  rw [if_neg (by rw [h]; simp)]

/-- When no row matches the shape, the loop succeeds, touches nothing, and
outputs the stripped rows. -/
theorem v2Process_no_match (dr : Bool) (rows : List (List String))
    (h : ∀ r ∈ rows, (decide (r.length > 1) && isIsoWithTz (r.getD 1 "")) = false) :
    v2Process dr rows = some (rows.map (dropTrailing dr), 0) := by
  induction rows with
  | nil => rfl
  | cons r rest ih =>
    have hr := v2Row_no_match dr r (h r (List.mem_cons_self r rest))
    have hrest := ih fun x hx => h x (List.mem_cons_of_mem r hx)
    unfold v2Process
    rw [hr, hrest]
    rfl

/-- On success, the `touched` counter equals the number of data rows whose
position-1 field matches the strict ISO shape. -/
theorem v2Process_touched (dr : Bool) (rows : List (List String))
    (out : List (List String)) (t : Nat) (h : v2Process dr rows = some (out, t)) :
    t = rows.countP fun r => decide (r.length > 1) && isIsoWithTz (r.getD 1 "") := by
  induction rows generalizing out t with
  | nil =>
    unfold v2Process at h
    simp only [Option.some.injEq, Prod.mk.injEq] at h
    simp [← h.2]
  | cons r rest ih =>
    unfold v2Process at h
    cases hv : (v2Row dr r).1 with
    | none => rw [hv] at h; exact absurd h (by simp)
    | some row =>
      rw [hv] at h
      cases hp : v2Process dr rest with
      | none => rw [hp] at h; exact absurd h (by simp)
      | some p =>
        rw [hp] at h
        simp only [Option.some.injEq, Prod.mk.injEq] at h
        rw [List.countP_cons, ← ih p.1 p.2 (by rw [hp]), ← h.2, v2Row_touch]

/-! ## Claim C7: no matching rows means the store is untouched -/

/-- C7. When zero data rows have a position-1 field matching the strict
ISO-with-offset shape, `correct_v2` returns without modifying the store and
without creating a backup. -/
theorem c7_no_match_no_write (header : List String) (rows : List (List String))
    (h : (rows.countP fun r => decide (r.length > 1) && isIsoWithTz (r.getD 1 "")) = 0) :
    correctV2 (some (header :: rows)) = some ⟨some (header :: rows), none⟩ := by
  have hall : ∀ r ∈ rows,
      (decide (r.length > 1) && isIsoWithTz (r.getD 1 "")) = false := by
    intro r hr
    have := List.countP_eq_zero.mp h r hr
    simpa using this
  simp [correctV2, v2Process_no_match (dropRightOf header) rows hall]

/-- C7, witness: a store with one non-matching row is returned unchanged. -/
theorem c7_no_match_no_write_witness :
    correctV2 (some ([["m", "datetime", "s", "d"] , ["A1", "nope", "St1", "N"]]))
      = some ⟨some [["m", "datetime", "s", "d"], ["A1", "nope", "St1", "N"]], none⟩ :=
  c7_no_match_no_write ["m", "datetime", "s", "d"] [["A1", "nope", "St1", "N"]] (by decide)

/-! ## Claim C10: the touched count and the backup trigger -/

/-- C10. On a completed run, the reported `touched` count equals the number
of data rows whose position-1 field matches the strict ISO-with-offset
regex shape (even when normalization of such a field fails and leaves it
byte-for-byte unchanged, as the witness's calendar-invalid day-32 store
shows), and as soon as that count is positive the store is backed up and
fully rewritten. -/
theorem c10_touched_count_and_backup (header : List String)
    (rows out : List (List String)) (t : Nat)
    (hp : v2Process (dropRightOf header) rows = some (out, t)) :
    t = (rows.countP fun r => decide (r.length > 1) && isIsoWithTz (r.getD 1 "")) ∧
      (0 < t → correctV2 (some (header :: rows))
        = some ⟨some (mkProcHeader header (dropRightOf header) :: out),
            some (header :: rows)⟩) := by
  refine ⟨v2Process_touched _ _ _ _ hp, fun ht => ?_⟩
  simp [correctV2, hp, Nat.pos_iff_ne_zero.mp ht]

/-- C10, witness: a store whose single data row has a shape-matching but
calendar-invalid field (`2025-06-32 ...`) reports `touched = 1`, keeps the
field unchanged, and still backs up and rewrites the store. -/
theorem c10_touched_count_and_backup_witness :
    (1 : Nat) = ([["A1", "2025-06-32 15:00:00+03:00", "St1", "N"]].countP fun r =>
        decide (r.length > 1) && isIsoWithTz (r.getD 1 "")) ∧
      (0 < 1 → correctV2 (some [["m", "datetime", "s", "d"],
            ["A1", "2025-06-32 15:00:00+03:00", "St1", "N"]])
        = some ⟨some (mkProcHeader ["m", "datetime", "s", "d"]
                (dropRightOf ["m", "datetime", "s", "d"])
              :: [["A1", "2025-06-32 15:00:00+03:00", "St1", "N"]]),
            some [["m", "datetime", "s", "d"],
              ["A1", "2025-06-32 15:00:00+03:00", "St1", "N"]]⟩) :=
  c10_touched_count_and_backup ["m", "datetime", "s", "d"]
    [["A1", "2025-06-32 15:00:00+03:00", "St1", "N"]]
    [["A1", "2025-06-32 15:00:00+03:00", "St1", "N"]] 1 (by decide)

/-! ## Claim C6: what the generation-2 corrector does to each row -/

/-- On success, the output rows relate to the input rows one-for-one: each
row is first stripped of its trailing placeholder (per the header flag),
and only a stripped row with more than one field whose position-1 field
matches the strict shape has that field replaced by its normalization. -/
theorem v2Process_forall₂ (dr : Bool) (rows out : List (List String)) (t : Nat)
    (hp : v2Process dr rows = some (out, t)) :
    List.Forall₂ (fun r o =>
      if (decide ((dropTrailing dr r).length > 1)
          && isIsoWithTz ((dropTrailing dr r).getD 1 "")) = true then
        ∃ v, normalizeIsoWithTz ((dropTrailing dr r).getD 1 "") = some v ∧
          o = (dropTrailing dr r).set 1 v
      else o = dropTrailing dr r) rows out := by
  induction rows generalizing out t with
  | nil =>
    unfold v2Process at hp
    simp only [Option.some.injEq, Prod.mk.injEq] at hp
    rw [← hp.1]
    exact List.Forall₂.nil
  | cons r rest ih =>
    unfold v2Process at hp
    cases hv : (v2Row dr r).1 with
    | none => rw [hv] at hp; exact absurd hp (by simp)
    | some row =>
      rw [hv] at hp
      cases hq : v2Process dr rest with
      | none => rw [hq] at hp; exact absurd hp (by simp)
      | some p =>
        rw [hq] at hp
        simp only [Option.some.injEq, Prod.mk.injEq] at hp
        rw [← hp.1]
        refine List.Forall₂.cons ?_ (ih p.1 p.2 (by rw [hq]))
        unfold v2Row at hv
        by_cases hc : (decide ((dropTrailing dr r).length > 1)
            && isIsoWithTz ((dropTrailing dr r).getD 1 "")) = true
        · rw [if_pos hc]
          rw [if_pos hc] at hv
          simp only [Option.map_eq_some'] at hv
          obtain ⟨v, hv1, hv2⟩ := hv
          exact ⟨v, hv1, hv2.symm⟩
        · rw [if_neg hc]
          rw [if_neg hc] at hv
          simp only [Option.some.injEq] at hv
          exact hv.symm

/-- C6, counterexample.  The claim says every row whose position-1 field
does not match the strict shape is copied through unchanged.  With a
trailing-placeholder header flag set, the non-matching row
`["A2","garbage","St2","S",""]` loses its trailing empty field on the
rewrite, so it is not copied through unchanged. -/
theorem c6_unchanged_copy_counterexample :
    correctV2 (some [["motorway", "datetime", "station", "direction", ""],
        ["A1", "2025-06-01 15:00:00+00:00", "St1", "N", ""],
        ["A2", "garbage", "St2", "S", ""]])
      = some ⟨some [["motorway", "datetime", "direction"],
            ["A1", "2025-06-01 18:00:00+03:00", "St1", "N"],
            ["A2", "garbage", "St2", "S"]],
          some [["motorway", "datetime", "station", "direction", ""],
            ["A1", "2025-06-01 15:00:00+00:00", "St1", "N", ""],
            ["A2", "garbage", "St2", "S", ""]]⟩ ∧
      isIsoWithTz "garbage" = false ∧
      ["A2", "garbage", "St2", "S", ""] ∉
        [["motorway", "datetime", "direction"],
          ["A1", "2025-06-01 18:00:00+03:00", "St1", "N"],
          ["A2", "garbage", "St2", "S"]] := by
  refine ⟨by decide, by decide, by decide⟩

/-- C6, amended.  On a completed run that rewrites the store (at least one
match), each data row is first stripped of a trailing placeholder when the
header flag is set; exactly the stripped rows with more than one field
whose position-1 field matches the strict ISO shape have that field
replaced by its normalization (which leaves it unchanged when it does not
parse), and every other row is written as its stripped self — not
necessarily byte-identical to the original. -/
theorem c6_selective_rewrite (header : List String)
    (rows out : List (List String)) (t : Nat)
    (hp : v2Process (dropRightOf header) rows = some (out, t)) (ht : 0 < t) :
    correctV2 (some (header :: rows))
        = some ⟨some (mkProcHeader header (dropRightOf header) :: out),
            some (header :: rows)⟩ ∧
      List.Forall₂ (fun r o =>
        if (decide ((dropTrailing (dropRightOf header) r).length > 1)
            && isIsoWithTz ((dropTrailing (dropRightOf header) r).getD 1 "")) = true then
          ∃ v, normalizeIsoWithTz ((dropTrailing (dropRightOf header) r).getD 1 "")
              = some v ∧
            o = (dropTrailing (dropRightOf header) r).set 1 v
        else o = dropTrailing (dropRightOf header) r) rows out := by
  refine ⟨?_, v2Process_forall₂ _ _ _ _ hp⟩
  simp [correctV2, hp, Nat.pos_iff_ne_zero.mp ht]

/-- C6, witness for the amended theorem on the counterexample store. -/
theorem c6_selective_rewrite_witness :
    correctV2 (some (["motorway", "datetime", "station", "direction", ""]
          :: [["A1", "2025-06-01 15:00:00+00:00", "St1", "N", ""],
              ["A2", "garbage", "St2", "S", ""]]))
        = some ⟨some (mkProcHeader ["motorway", "datetime", "station", "direction", ""]
              (dropRightOf ["motorway", "datetime", "station", "direction", ""])
            :: [["A1", "2025-06-01 18:00:00+03:00", "St1", "N"],
                ["A2", "garbage", "St2", "S"]]),
            some (["motorway", "datetime", "station", "direction", ""]
              :: [["A1", "2025-06-01 15:00:00+00:00", "St1", "N", ""],
                  ["A2", "garbage", "St2", "S", ""]])⟩ ∧
      List.Forall₂ (fun r o =>
        if (decide ((dropTrailing (dropRightOf ["motorway", "datetime", "station",
                "direction", ""]) r).length > 1)
            && isIsoWithTz ((dropTrailing (dropRightOf ["motorway", "datetime",
                "station", "direction", ""]) r).getD 1 "")) = true then
          ∃ v, normalizeIsoWithTz ((dropTrailing (dropRightOf ["motorway", "datetime",
                  "station", "direction", ""]) r).getD 1 "") = some v ∧
            o = (dropTrailing (dropRightOf ["motorway", "datetime", "station",
                "direction", ""]) r).set 1 v
        else o = dropTrailing (dropRightOf ["motorway", "datetime", "station",
            "direction", ""]) r)
        [["A1", "2025-06-01 15:00:00+00:00", "St1", "N", ""],
          ["A2", "garbage", "St2", "S", ""]]
        [["A1", "2025-06-01 18:00:00+03:00", "St1", "N"],
          ["A2", "garbage", "St2", "S"]] :=
  c6_selective_rewrite ["motorway", "datetime", "station", "direction", ""]
    [["A1", "2025-06-01 15:00:00+00:00", "St1", "N", ""],
      ["A2", "garbage", "St2", "S", ""]]
    [["A1", "2025-06-01 18:00:00+03:00", "St1", "N"],
      ["A2", "garbage", "St2", "S"]] 1 (by decide) (by decide)

/-! ## Claim C3: the canonical-timestamp round trip.

Counterexample first; then the calendar lemmas needed for the amended,
universally quantified round-trip theorem. -/

/-- C3, counterexample.  The wall clock `30/03/2025 03:30` matches the first
recognized format but lies in the Athens spring-forward gap, so `fold=0`
localization attaches the pre-transition offset +02:00; re-parsing that
canonical serialization and re-expressing it in Europe/Athens moves it to
`04:30+03:00` — the hour is not recovered. -/
theorem c3_roundtrip_counterexample :
    tryParseDatetime "30/03/2025" "03:30" = "2025-03-30 03:30:00+02:00" ∧
      normalizeIsoWithTz "2025-03-30 03:30:00+02:00"
        = some "2025-03-30 04:30:00+03:00" ∧
      ("2025-03-30 04:30:00+03:00" : String) ≠ "2025-03-30 03:30:00+02:00" := by
  refine ⟨by decide, by decide, by decide⟩

/-- The Gregorian leap test, arithmetically. -/
theorem isLeap_iff (y : Nat) :
    isLeap y = true ↔ (y % 4 = 0 ∧ y % 100 ≠ 0) ∨ y % 400 = 0 := by
  simp [isLeap, Bool.or_eq_true, Bool.and_eq_true]

/-- The closed-form day count satisfies the year-by-year recurrence. -/
theorem closedDays_succ (n : Nat) :
    closedDays (n + 1) = closedDays n + daysInYear (n + 1) := by
  unfold closedDays daysInYear
  by_cases h : isLeap (n + 1) = true
  · rw [if_pos h]
    rw [isLeap_iff] at h
    rcases h with ⟨hA, hB⟩ | hA
    · have e4 : (n + 1) / 4 = n / 4 + 1 := by omega
      have h400 : (n + 1) % 400 ≠ 0 := by omega
      have e100 : (n + 1) / 100 = n / 100 := by omega
      have e400 : (n + 1) / 400 = n / 400 := by omega
      have hq1 : n / 100 ≤ n := Nat.div_le_self n 100
      have hq2 : n ≤ 365 * n := Nat.le_mul_of_pos_left n (by norm_num : (0:Nat) < 365)
      have hb : n / 100 ≤ 365 * n + n / 4 + n / 400 :=
        le_trans hq1 (le_trans hq2 (le_trans (Nat.le_add_right (365 * n) (n / 4))
          (Nat.le_add_right (365 * n + n / 4) (n / 400))))
      rw [e4, e100, e400]
      omega
    · have h100 : (n + 1) % 100 = 0 := by omega
      have h4 : (n + 1) % 4 = 0 := by omega
      have e4 : (n + 1) / 4 = n / 4 + 1 := by omega
      have e100 : (n + 1) / 100 = n / 100 + 1 := by omega
      have e400 : (n + 1) / 400 = n / 400 + 1 := by omega
      have hq1 : n / 100 ≤ n := Nat.div_le_self n 100
      have hq2 : n ≤ 365 * n := Nat.le_mul_of_pos_left n (by norm_num : (0:Nat) < 365)
      have hb : n / 100 ≤ 365 * n + n / 4 + n / 400 :=
        le_trans hq1 (le_trans hq2 (le_trans (Nat.le_add_right (365 * n) (n / 4))
          (Nat.le_add_right (365 * n + n / 4) (n / 400))))
      rw [e4, e100, e400]
      omega
  · rw [if_neg h]
    rw [isLeap_iff] at h
    push_neg at h
    obtain ⟨hA, hB⟩ := h
    by_cases hc : (n + 1) % 4 = 0
    · have h100 := hA hc
      have e4 : (n + 1) / 4 = n / 4 + 1 := by omega
      have e100 : (n + 1) / 100 = n / 100 + 1 := by omega
      have e400 : (n + 1) / 400 = n / 400 := by omega
      clear hA
      have hq1 : n / 100 ≤ n := Nat.div_le_self n 100
      have hq2 : n ≤ 365 * n := Nat.le_mul_of_pos_left n (by norm_num : (0:Nat) < 365)
      have hb : n / 100 ≤ 365 * n + n / 4 + n / 400 :=
        le_trans hq1 (le_trans hq2 (le_trans (Nat.le_add_right (365 * n) (n / 4))
          (Nat.le_add_right (365 * n + n / 4) (n / 400))))
      rw [e4, e100, e400]
      omega
    · have h100 : (n + 1) % 100 ≠ 0 := by omega
      have e4 : (n + 1) / 4 = n / 4 := by omega
      have e100 : (n + 1) / 100 = n / 100 := by omega
      have e400 : (n + 1) / 400 = n / 400 := by omega
      clear hA
      have hq1 : n / 100 ≤ n := Nat.div_le_self n 100
      have hq2 : n ≤ 365 * n := Nat.le_mul_of_pos_left n (by norm_num : (0:Nat) < 365)
      have hb : n / 100 ≤ 365 * n + n / 4 + n / 400 :=
        le_trans hq1 (le_trans hq2 (le_trans (Nat.le_add_right (365 * n) (n / 4))
          (Nat.le_add_right (365 * n + n / 4) (n / 400))))
      rw [e4, e100, e400]
      omega

/-- Bounds on the length of a year. -/
theorem daysInYear_bounds (y : Nat) : 365 ≤ daysInYear y ∧ daysInYear y ≤ 366 := by
  unfold daysInYear
  split <;> omega

/-- The closed form is monotone. -/
theorem closedDays_mono : Monotone closedDays :=
  monotone_nat_of_le_succ fun n => by
    rw [closedDays_succ n]
    omega

/-- Peeling one year off the far end of a year-range sum. -/
theorem sumYears_succ_right (l : Nat) :
    ∀ s : Nat, sumYears s (l + 1) = sumYears s l + daysInYear (s + l) := by
  induction l with
  | zero =>
    intro s
    show daysInYear s + 0 = 0 + daysInYear (s + 0)
    simp
  | succ l ih =>
    intro s
    show daysInYear s + sumYears (s + 1) (l + 1)
      = (daysInYear s + sumYears (s + 1) l) + daysInYear (s + (l + 1))
    rw [ih (s + 1)]
    have h2 : s + 1 + l = s + (l + 1) := by omega
    rw [h2]
    omega

/-- Splitting a year-range sum. -/
theorem sumYears_add (a : Nat) : ∀ (s c : Nat),
    sumYears s (a + c) = sumYears s a + sumYears (s + a) c := by
  induction a with
  | zero => intro s c; simp [sumYears]
  | succ a ih =>
    intro s c
    have h1 : a + 1 + c = (a + c) + 1 := by omega
    rw [h1]
    show daysInYear s + sumYears (s + 1) (a + c)
      = (daysInYear s + sumYears (s + 1) a) + sumYears (s + (a + 1)) c
    rw [ih (s + 1) c]
    have h2 : s + 1 + a = s + (a + 1) := by omega
    rw [h2]
    omega

/-- The closed form accumulates exactly the year-range sums. -/
theorem closedDays_add_sum (a : Nat) : ∀ b : Nat,
    closedDays (a + b) = closedDays a + sumYears (a + 1) b := by
  intro b
  induction b with
  | zero => simp [sumYears]
  | succ b ih =>
    have h1 : a + (b + 1) = (a + b) + 1 := by omega
    rw [h1, closedDays_succ, ih, sumYears_succ_right]
    have h2 : a + 1 + b = a + b + 1 := by omega
    rw [h2]
    omega

/-- One 400-year Gregorian era is exactly 146097 days. -/
theorem closedDays_era (k : Nat) : closedDays (400 * k) = 146097 * k := by
  unfold closedDays
  omega

/-- The year-peeling loop resolves a day count of the form
"whole years from `s` plus a residue inside the next year". -/
theorem goY_add (l : Nat) : ∀ (f s r : Nat), r < daysInYear (s + l) →
    goY (f + l + 1) s (sumYears s l + r) = (s + l, goM (isLeap (s + l)) 11 1 r) := by
  induction l with
  | zero =>
    intro f s r hr
    show goY (f + 0 + 1) s (0 + r) = _
    have h1 : f + 0 + 1 = f + 1 := by omega
    rw [h1, Nat.zero_add]
    unfold goY
    rw [if_pos (by simpa using hr)]
    simp
  | succ l ih =>
    intro f s r hr
    have h1 : f + (l + 1) + 1 = (f + l + 1) + 1 := by omega
    have h2 : sumYears s (l + 1) + r
        = daysInYear s + (sumYears (s + 1) l + r) := by
      show daysInYear s + sumYears (s + 1) l + r = _
      omega
    rw [h1, h2]
    have h365 := daysInYear_bounds s
    unfold goY
    rw [if_neg (by omega)]
    have h3 : daysInYear s + (sumYears (s + 1) l + r) - daysInYear s
        = sumYears (s + 1) l + r := by omega
    have hr' : r < daysInYear (s + 1 + l) :=
      (congrArg daysInYear (by omega : s + (l + 1) = s + 1 + l)) ▸ hr
    rw [h3, ih f (s + 1) r hr']
    have h4 : s + 1 + l = s + (l + 1) := by omega
    rw [h4]

/-- `fromDays` recovers the year (and delegates the day-of-year to `goM`)
for any in-range day number written as "start of year `y` plus residue". -/
theorem fromDays_fst (y r : Nat) (h1 : 1 ≤ y) (hr : r < daysInYear y) :
    fromDays (closedDays (y - 1) + r) = (y, goM (isLeap y) 11 1 r) := by
  set e := (y - 1) / 400 with he
  set l := (y - 1) - 400 * e with hl
  have hle : l ≤ 399 := by omega
  have hy : y = 400 * e + l + 1 := by omega
  have hsplit : closedDays (y - 1) = 146097 * e + sumYears (400 * e + 1) l := by
    have h400 : (400 * e) + l = y - 1 := by omega
    rw [← h400, closedDays_add_sum, closedDays_era]
  have hera : sumYears (400 * e + 1) 400 = 146097 := by
    have h1 : closedDays (400 * e + 400) = closedDays (400 * e) + sumYears (400 * e + 1) 400 :=
      closedDays_add_sum (400 * e) 400
    have h2 : (400 * e) + 400 = 400 * (e + 1) := by omega
    rw [h2, closedDays_era, closedDays_era] at h1
    omega
  have hsum_le : sumYears (400 * e + 1) l + daysInYear y ≤ 146097 := by
    have h1 : sumYears (400 * e + 1) (l + 1)
        = sumYears (400 * e + 1) l + daysInYear (400 * e + 1 + l) :=
      sumYears_succ_right l (400 * e + 1)
    have h2 : 400 * e + 1 + l = y := by omega
    rw [h2] at h1
    have h4 : (l + 1) + (400 - (l + 1)) = 400 := by omega
    have h3 := sumYears_add (l + 1) (400 * e + 1) (400 - (l + 1))
    rw [h4] at h3
    omega
  have hinner : sumYears (400 * e + 1) l + r < 146097 := by omega
  have hdiv : (closedDays (y - 1) + r) / 146097 = e := by
    rw [hsplit]
    have : 146097 * e + sumYears (400 * e + 1) l + r
        = 146097 * e + (sumYears (400 * e + 1) l + r) := by omega
    omega
  have hmod : (closedDays (y - 1) + r) % 146097 = sumYears (400 * e + 1) l + r := by
    rw [hsplit]
    omega
  unfold fromDays
  rw [hdiv, hmod]
  have hfuel : (401 : Nat) = (400 - l) + l + 1 := by omega
  rw [hfuel]
  have h2 : 400 * e + 1 + l = y := by omega
  have hr' : r < daysInYear (400 * e + 1 + l) := (congrArg daysInYear h2).symm ▸ hr
  rw [goY_add l (400 - l) (400 * e + 1) r hr', h2]

/-- Unfolding `daysBeforeMonth` one month at a time. -/
theorem dbm_succ (leap : Bool) (m : Nat) (h : 1 ≤ m) :
    daysBeforeMonth leap (m + 1) = daysBeforeMonth leap m + dimL leap m := by
  show (if m = 0 then 0 else daysBeforeMonth leap m + dimL leap m) = _
  rw [if_neg (by omega)]

/-- Peeling one month off the far end of a month-range sum. -/
theorem sumMonths_succ_right (leap : Bool) (k : Nat) :
    ∀ s : Nat, sumMonths leap s (k + 1) = sumMonths leap s k + dimL leap (s + k) := by
  induction k with
  | zero =>
    intro s
    show dimL leap s + 0 = 0 + dimL leap (s + 0)
    simp
  | succ k ih =>
    intro s
    show dimL leap s + sumMonths leap (s + 1) (k + 1)
      = (dimL leap s + sumMonths leap (s + 1) k) + dimL leap (s + (k + 1))
    rw [ih (s + 1)]
    have h2 : s + 1 + k = s + (k + 1) := by omega
    rw [h2]
    omega

/-- `daysBeforeMonth` is the month-range sum starting at January. -/
theorem dbm_eq_sumMonths (leap : Bool) (m : Nat) (h : 1 ≤ m) :
    daysBeforeMonth leap m = sumMonths leap 1 (m - 1) := by
  induction m with
  | zero => omega
  | succ m ih =>
    rcases Nat.eq_or_lt_of_le h with h1 | h1
    · have hm0 : m = 0 := by omega
      subst hm0
      rfl
    · have hm : 1 ≤ m := by omega
      rw [dbm_succ leap m hm, ih hm]
      have h2 : m + 1 - 1 = (m - 1) + 1 := by omega
      rw [h2, sumMonths_succ_right]
      have h3 : 1 + (m - 1) = m := by omega
      rw [h3]

/-- The month-walk loop resolves a day-of-year of the form "whole months
from `m` plus a residue inside the next month". -/
theorem goM_add (leap : Bool) (k : Nat) : ∀ (f m doy : Nat),
    doy < dimL leap (m + k) →
    goM leap (f + k) m (sumMonths leap m k + doy) = (m + k, doy + 1) := by
  induction k with
  | zero =>
    intro f m doy hd
    simp only [Nat.add_zero] at hd ⊢
    have hs0 : sumMonths leap m 0 + doy = doy := Nat.zero_add doy
    rw [hs0]
    cases f with
    | zero => rfl
    | succ f =>
      show (if doy < dimL leap m then ((m, doy + 1) : Nat × Nat)
          else goM leap f (m + 1) (doy - dimL leap m)) = (m, doy + 1)
      rw [if_pos hd]
  | succ k ih =>
    intro f m doy hd
    have h1 : f + (k + 1) = (f + k) + 1 := by omega
    have h2 : sumMonths leap m (k + 1) + doy
        = dimL leap m + (sumMonths leap (m + 1) k + doy) := by
      show dimL leap m + sumMonths leap (m + 1) k + doy = _
      omega
    rw [h1, h2]
    show (if _ < dimL leap m then _ else _) = _
    rw [if_neg (by omega)]
    have h3 : dimL leap m + (sumMonths leap (m + 1) k + doy) - dimL leap m
        = sumMonths leap (m + 1) k + doy := by omega
    have hd' : doy < dimL leap (m + 1 + k) :=
      (congrArg (dimL leap) (by omega : m + (k + 1) = m + 1 + k)) ▸ hd
    rw [h3, ih f (m + 1) doy hd']
    have h4 : m + 1 + k = m + (k + 1) := by omega
    rw [h4]

/-- The month-walk loop recovers month and day from a valid day-of-year. -/
theorem goM_dbm (leap : Bool) (m d : Nat) (h2 : 1 ≤ m) (h3 : m ≤ 12)
    (h4 : 1 ≤ d) (h5 : d ≤ dimL leap m) :
    goM leap 11 1 (daysBeforeMonth leap m + (d - 1)) = (m, d) := by
  rw [dbm_eq_sumMonths leap m h2]
  have hf : (11 : Nat) = (12 - m) + (m - 1) := by omega
  rw [hf]
  have hd' : d - 1 < dimL leap (1 + (m - 1)) :=
    (congrArg (dimL leap) (by omega : m = 1 + (m - 1))) ▸ (by omega : d - 1 < dimL leap m)
  rw [goM_add leap (m - 1) (12 - m) 1 (d - 1) hd']
  have h6 : 1 + (m - 1) = m := by omega
  have h7 : d - 1 + 1 = d := by omega
  rw [h6, h7]

/-- The twelve months sum to the length of the year. -/
theorem dbm_13 (leap : Bool) :
    daysBeforeMonth leap 13 = (if leap then 366 else 365) := by
  cases leap <;> rfl

/-- A valid (month, day) pair sits strictly inside its year. -/
theorem dbm_lt_year (leap : Bool) (m d : Nat) (h2 : 1 ≤ m) (h3 : m ≤ 12)
    (h4 : 1 ≤ d) (h5 : d ≤ dimL leap m) :
    daysBeforeMonth leap m + (d - 1) < (if leap then 366 else 365) := by
  have hmono : ∀ a b : Nat, a ≤ b → daysBeforeMonth leap a ≤ daysBeforeMonth leap b := by
    intro a b hab
    refine monotone_nat_of_le_succ (f := daysBeforeMonth leap) (fun n => ?_) hab
    cases n with
    | zero => simp [daysBeforeMonth]
    | succ n => rw [dbm_succ leap (n + 1) (by omega)]; omega
  have h6 : daysBeforeMonth leap m + dimL leap m = daysBeforeMonth leap (m + 1) :=
    (dbm_succ leap m h2).symm
  have h7 : daysBeforeMonth leap (m + 1) ≤ daysBeforeMonth leap 13 :=
    hmono (m + 1) 13 (by omega)
  rw [dbm_13] at h7
  omega

/-- The full calendar round trip: `fromDays` inverts `toDays` on valid dates. -/
theorem fromDays_toDays (y m d : Nat) (h1 : 1 ≤ y) (h2 : 1 ≤ m) (h3 : m ≤ 12)
    (h4 : 1 ≤ d) (h5 : d ≤ daysInMonth y m) :
    fromDays (toDays y m d) = (y, m, d) := by
  unfold toDays
  have hin : daysBeforeMonth (isLeap y) m + (d - 1) < daysInYear y := by
    have := dbm_lt_year (isLeap y) m d h2 h3 h4 h5
    unfold daysInYear
    exact this
  rw [Nat.add_assoc, fromDays_fst y _ h1 hin, goM_dbm (isLeap y) m d h2 h3 h4 h5]

/-- The second-level round trip: `fromSec` inverts `toSec` on valid datetimes. -/
theorem fromSec_toSec (L : PyDT) (hv : ValidDT L) : fromSec (toSec L) = L := by
  obtain ⟨hy1, hy2, hm1, hm2, hd1, hd2, hh, hmi, hs⟩ := hv
  have hT : 3600 * L.h + 60 * L.mi + L.sec < 86400 := by omega
  have hdiv : toSec L / 86400 = toDays L.y L.m L.d := by
    unfold toSec
    omega
  have hmod : toSec L % 86400 = 3600 * L.h + 60 * L.mi + L.sec := by
    unfold toSec
    omega
  have e1 : (3600 * L.h + 60 * L.mi + L.sec) / 3600 = L.h := by omega
  have e2 : (3600 * L.h + 60 * L.mi + L.sec) % 3600 / 60 = L.mi := by omega
  have e3 : (3600 * L.h + 60 * L.mi + L.sec) % 60 = L.sec := by omega
  show (⟨(fromDays (toSec L / 86400)).1, (fromDays (toSec L / 86400)).2.1,
      (fromDays (toSec L / 86400)).2.2, toSec L % 86400 / 3600,
      toSec L % 86400 % 3600 / 60, toSec L % 86400 % 60⟩ : PyDT) = L
  rw [hdiv, hmod, fromDays_toDays L.y L.m L.d hy1 hm1 hm2 hd1 hd2, e1, e2, e3]

/-- The last Sunday of a 31-day month falls on day 25..31. -/
theorem lastSun_bounds (y m : Nat) : 25 ≤ lastSun y m ∧ lastSun y m ≤ 31 := by
  unfold lastSun
  have h7 : (toDays y m 31 + 1) % 7 < 7 := Nat.mod_lt _ (by norm_num)
  omega

/-- Day-number bounds for the spring transition Sunday. -/
theorem marchDays_bounds (y : Nat) :
    closedDays (y - 1) + 83 ≤ toDays y 3 (lastSun y 3) ∧
      toDays y 3 (lastSun y 3) ≤ closedDays (y - 1) + 90 := by
  have hls := lastSun_bounds y 3
  unfold toDays
  cases hL : isLeap y
  · have hd : daysBeforeMonth false 3 = 59 := rfl
    rw [hd]
    omega
  · have hd : daysBeforeMonth true 3 = 60 := rfl
    rw [hd]
    omega

/-- Day-number bounds for the autumn transition Sunday. -/
theorem octDays_bounds (y : Nat) :
    closedDays (y - 1) + 297 ≤ toDays y 10 (lastSun y 10) ∧
      toDays y 10 (lastSun y 10) ≤ closedDays (y - 1) + 304 := by
  have hls := lastSun_bounds y 10
  unfold toDays
  cases hL : isLeap y
  · have hd : daysBeforeMonth false 10 = 273 := rfl
    rw [hd]
    omega
  · have hd : daysBeforeMonth true 10 = 274 := rfl
    rw [hd]
    omega

/-- Second-count bounds of a valid datetime inside its year. -/
theorem toSec_year_bounds (L : PyDT) (hv : ValidDT L) :
    86400 * closedDays (L.y - 1) ≤ toSec L ∧ toSec L < 86400 * closedDays L.y := by
  obtain ⟨hy1, hy2, hm1, hm2, hd1, hd2, hh, hmi, hs⟩ := hv
  have hin : daysBeforeMonth (isLeap L.y) L.m + (L.d - 1) < daysInYear L.y := by
    have := dbm_lt_year (isLeap L.y) L.m L.d hm1 hm2 hd1 hd2
    unfold daysInYear
    exact this
  have hCy : closedDays L.y = closedDays (L.y - 1) + daysInYear L.y := by
    have := closedDays_succ (L.y - 1)
    have hy : L.y - 1 + 1 = L.y := by omega
    rw [hy] at this
    exact this
  unfold toSec toDays
  omega

/-- `maxSec` in terms of the closed-form day count. -/
theorem maxSec_eq : maxSec = 86400 * (closedDays 9998 + 364) + 86399 := by
  decide

/-- Every valid datetime stays within the representable range. -/
theorem toSec_le_max (L : PyDT) (hv : ValidDT L) : toSec L ≤ maxSec := by
  have hb := toSec_year_bounds L hv
  have hy2 : L.y ≤ 9999 := hv.2.1
  have hmono : closedDays L.y ≤ closedDays 9999 := closedDays_mono hy2
  have h99 : closedDays 9999 = closedDays 9998 + 365 := by
    have := closedDays_succ 9998
    have hD : daysInYear 9999 = 365 := by decide
    rw [hD] at this
    exact this
  rw [maxSec_eq]
  omega

/-- The heart of the round trip: converting a localized wall clock to UTC
(by subtracting the attached `fold=0` offset) and looking up the Athens
offset at that UTC instant returns the very offset that was attached —
provided the wall clock does not sit in the spring-forward gap. -/
theorem athensUTC_agrees (L : PyDT) (hv : ValidDT L) (hgap : ¬ InSpringGap L)
    (hlow : 10800 ≤ toSec L) :
    athensOffsetUTC (toSec L - (60 * athensLocalOffset L).toNat)
      = athensLocalOffset L := by
  have hy1 : 1 ≤ L.y := hv.1
  have hb := toSec_year_bounds L hv
  have hDM := marchDays_bounds L.y
  have hDO := octDays_bounds L.y
  have hDY := daysInYear_bounds L.y
  have hCy : closedDays L.y = closedDays (L.y - 1) + daysInYear L.y := by
    have := closedDays_succ (L.y - 1)
    have hy : L.y - 1 + 1 = L.y := by omega
    rw [hy] at this
    exact this
  unfold InSpringGap at hgap
  push_neg at hgap
  unfold athensLocalOffset
  by_cases hc : 86400 * toDays L.y 3 (lastSun L.y 3) + 14400 ≤ toSec L ∧
      toSec L < 86400 * toDays L.y 10 (lastSun L.y 10) + 14400
  · -- summer: the attached offset is +03:00 and the UTC instant lies
    -- between the two transition marks of the same year
    rw [if_pos hc]
    have ht : (60 * (180 : Int)).toNat = 10800 := by decide
    rw [ht]
    set u := toSec L - 10800 with hu
    set r := u / 86400 - closedDays (L.y - 1) with hr
    have hur : u / 86400 = closedDays (L.y - 1) + r ∧ r < daysInYear L.y := by omega
    have hfst : fromDays (u / 86400) = (L.y, goM (isLeap L.y) 11 1 r) := by
      rw [hur.1]
      exact fromDays_fst L.y r hy1 hur.2
    unfold athensOffsetUTC marchMarkUTC octMarkUTC
    rw [hfst]
    show (if 86400 * toDays L.y 3 (lastSun L.y 3) + 3600 ≤ u ∧
        u < 86400 * toDays L.y 10 (lastSun L.y 10) + 3600 then (180 : Int) else 120) = 180
    rw [if_pos (by omega)]
  · -- winter: the attached offset is +02:00
    rw [if_neg hc]
    have ht : (60 * (120 : Int)).toNat = 7200 := by decide
    rw [ht]
    set u := toSec L - 7200 with hu
    push_neg at hc
    by_cases hB : toSec L < 86400 * closedDays (L.y - 1) + 7200
    · -- first two hours of January 1: the UTC instant falls into the
      -- previous year, well after that year's autumn transition
      have hy2 : 2 ≤ L.y := by
        by_contra hy2
        have h1 : L.y = 1 := by omega
        rw [h1] at hB
        have h0 : closedDays (1 - 1) = 0 := rfl
        omega
      have hC' : closedDays (L.y - 1) = closedDays (L.y - 2) + daysInYear (L.y - 1) := by
        have := closedDays_succ (L.y - 2)
        have hy : L.y - 2 + 1 = L.y - 1 := by omega
        rw [hy] at this
        exact this
      have hDY' := daysInYear_bounds (L.y - 1)
      have hDO' := octDays_bounds (L.y - 1)
      have hDM' := marchDays_bounds (L.y - 1)
      have hC'' : L.y - 1 - 1 = L.y - 2 := by omega
      rw [hC''] at hDO' hDM'
      set r := daysInYear (L.y - 1) - 1 with hr
      have hud : u / 86400 = closedDays (L.y - 2) + r := by omega
      have hfst : fromDays (u / 86400) = (L.y - 1, goM (isLeap (L.y - 1)) 11 1 r) := by
        rw [hud]
        exact fromDays_fst (L.y - 1) r (by omega) (by omega)
      unfold athensOffsetUTC marchMarkUTC octMarkUTC
      rw [hfst]
      show (if 86400 * toDays (L.y - 1) 3 (lastSun (L.y - 1) 3) + 3600 ≤ u ∧
          u < 86400 * toDays (L.y - 1) 10 (lastSun (L.y - 1) 10) + 3600
          then (180 : Int) else 120) = 120
      rw [if_neg (by omega)]
    · -- inside year `L.y`, either before the spring mark or after the
      -- autumn mark
      set r := u / 86400 - closedDays (L.y - 1) with hr
      have hur : u / 86400 = closedDays (L.y - 1) + r ∧ r < daysInYear L.y := by omega
      have hfst : fromDays (u / 86400) = (L.y, goM (isLeap L.y) 11 1 r) := by
        rw [hur.1]
        exact fromDays_fst L.y r hy1 hur.2
      unfold athensOffsetUTC marchMarkUTC octMarkUTC
      rw [hfst]
      show (if 86400 * toDays L.y 3 (lastSun L.y 3) + 3600 ≤ u ∧
          u < 86400 * toDays L.y 10 (lastSun L.y 10) + 3600 then (180 : Int) else 120) = 120
      rw [if_neg (by omega)]

/-- Digit characters are digits. -/
theorem digitChar_isDigit (n : Nat) (h : n < 10) : (digitChar n).isDigit = true := by
  interval_cases n <;> decide

/-- Digit characters decode to their value. -/
theorem digitChar_val (n : Nat) (h : n < 10) : (digitChar n).toNat - 48 = n := by
  interval_cases n <;> decide

/-- A two-digit zero-padded rendering decodes to its value. -/
theorem natOfDigits_pad2 (n : Nat) (h : n < 100) :
    natOfDigits [digitChar (n / 10 % 10), digitChar (n % 10)] = n := by
  show List.foldl _ 0 _ = n
  simp only [List.foldl]
  rw [digitChar_val (n / 10 % 10) (by omega), digitChar_val (n % 10) (by omega)]
  omega

/-- A four-digit zero-padded rendering decodes to its value. -/
theorem natOfDigits_pad4 (n : Nat) (h : n < 10000) :
    natOfDigits [digitChar (n / 1000 % 10), digitChar (n / 100 % 10),
      digitChar (n / 10 % 10), digitChar (n % 10)] = n := by
  show List.foldl _ 0 _ = n
  simp only [List.foldl]
  rw [digitChar_val (n / 1000 % 10) (by omega), digitChar_val (n / 100 % 10) (by omega),
    digitChar_val (n / 10 % 10) (by omega), digitChar_val (n % 10) (by omega)]
  omega

/-- No month is longer than 31 days. -/
theorem dimL_le : ∀ (leap : Bool) (m : Nat), dimL leap m ≤ 31
  | leap, 0 => by cases leap <;> decide
  | leap, 1 => by cases leap <;> decide
  | leap, 2 => by cases leap <;> decide
  | leap, 3 => by cases leap <;> decide
  | leap, 4 => by cases leap <;> decide
  | leap, 5 => by cases leap <;> decide
  | leap, 6 => by cases leap <;> decide
  | leap, 7 => by cases leap <;> decide
  | leap, 8 => by cases leap <;> decide
  | leap, 9 => by cases leap <;> decide
  | leap, 10 => by cases leap <;> decide
  | leap, 11 => by cases leap <;> decide
  | leap, 12 => by cases leap <;> decide
  | leap, (n + 13) => Nat.zero_le 31

/-- Parsing inverts serialization: a canonical `YYYY-MM-DD HH:MM:SS+HH:MM`
string produced from a valid datetime and a nonnegative whole-minute offset
below 24 hours parses back to exactly that datetime and offset. -/
theorem isoShapeParse_isoChars (L : PyDT) (o : Int) (hv : ValidDT L)
    (ho : 0 ≤ o) (ho2 : o < 1440) :
    isoShapeParse (isoChars L o) = some (L, o) := by
  obtain ⟨hy1, hy2, hm1, hm2, hd1, hd2, hh, hmi, hs⟩ := hv
  have hdm : daysInMonth L.y L.m ≤ 31 := dimL_le (isLeap L.y) L.m
  have hoabs : o.natAbs < 1440 := by omega
  have hsign : ¬ o < 0 := by omega
  unfold isoChars offChars pad4 pad2
  rw [if_neg hsign]
  simp only [List.cons_append, List.nil_append]
  simp only [isoShapeParse]
  rw [List.all_cons, List.all_cons, List.all_cons, List.all_cons, List.all_cons,
    List.all_cons, List.all_cons, List.all_cons, List.all_cons, List.all_cons,
    List.all_cons, List.all_cons, List.all_cons, List.all_cons, List.all_cons,
    List.all_cons, List.all_cons, List.all_cons, List.all_nil]
  rw [digitChar_isDigit (L.y / 1000 % 10) (by omega), digitChar_isDigit (L.y / 100 % 10) (by omega),
    digitChar_isDigit (L.y / 10 % 10) (by omega), digitChar_isDigit (L.y % 10) (by omega),
    digitChar_isDigit (L.m / 10 % 10) (by omega), digitChar_isDigit (L.m % 10) (by omega),
    digitChar_isDigit (L.d / 10 % 10) (by omega), digitChar_isDigit (L.d % 10) (by omega),
    digitChar_isDigit (L.h / 10 % 10) (by omega), digitChar_isDigit (L.h % 10) (by omega),
    digitChar_isDigit (L.mi / 10 % 10) (by omega), digitChar_isDigit (L.mi % 10) (by omega),
    digitChar_isDigit (L.sec / 10 % 10) (by omega), digitChar_isDigit (L.sec % 10) (by omega),
    digitChar_isDigit (o.natAbs / 60 / 10 % 10) (by omega),
    digitChar_isDigit (o.natAbs / 60 % 10) (by omega),
    digitChar_isDigit (o.natAbs % 60 / 10 % 10) (by omega),
    digitChar_isDigit (o.natAbs % 60 % 10) (by omega)]
  simp only [Bool.and_true, Bool.true_and]
  rw [if_pos (show (decide True || decide (('+' : Char) = '-')) = true from by decide)]
  rw [natOfDigits_pad4 L.y (by omega), natOfDigits_pad2 L.m (by omega),
    natOfDigits_pad2 L.d (by omega), natOfDigits_pad2 L.h (by omega),
    natOfDigits_pad2 L.mi (by omega), natOfDigits_pad2 L.sec (by omega),
    natOfDigits_pad2 (o.natAbs / 60) (by omega), natOfDigits_pad2 (o.natAbs % 60) (by omega)]
  have hoeq : 60 * (o.natAbs / 60) + o.natAbs % 60 = o.natAbs := by omega
  rw [hoeq]
  rw [if_pos (⟨hy1, hm1, hm2, hd1, hd2, hh, hmi, hs, hoabs⟩ :
    1 ≤ L.y ∧ 1 ≤ L.m ∧ L.m ≤ 12 ∧ 1 ≤ L.d ∧ L.d ≤ daysInMonth L.y L.m ∧
      L.h ≤ 23 ∧ L.mi ≤ 59 ∧ L.sec ≤ 59 ∧ o.natAbs < 1440)]
  have hplus : ¬ (('+' : Char) = '-') := by decide
  rw [if_neg hplus]
  rw [Int.natAbs_of_nonneg ho]

/-- A successful `strptime`-style validation produces a valid datetime. -/
theorem mkValid_valid (y m d h mi : Nat) (L : PyDT) (hk : mkValid y m d h mi = some L) :
    ValidDT L := by
  unfold mkValid at hk
  split at hk
  case isTrue hcond =>
    simp only [Option.some.injEq] at hk
    rw [← hk]
    unfold ValidDT
    simp only
    omega
  case isFalse => exact absurd hk (by simp)

/-- Format 1 only succeeds on valid datetimes. -/
theorem fmtDMYhm_valid (s : List Char) (L : PyDT) (h : fmtDMYhm s = some L) :
    ValidDT L := by
  unfold fmtDMYhm at h
  repeat' split at h
  all_goals first
    | exact mkValid_valid _ _ _ _ _ _ h
    | exact absurd h (by simp)

/-- Format 2 only succeeds on valid datetimes. -/
theorem fmtDMYh_valid (s : List Char) (L : PyDT) (h : fmtDMYh s = some L) :
    ValidDT L := by
  unfold fmtDMYh at h
  repeat' split at h
  all_goals first
    | exact mkValid_valid _ _ _ _ _ _ h
    | exact absurd h (by simp)

/-- Format 3 only succeeds on valid datetimes. -/
theorem fmtYMDhm_valid (s : List Char) (L : PyDT) (h : fmtYMDhm s = some L) :
    ValidDT L := by
  unfold fmtYMDhm at h
  repeat' split at h
  all_goals first
    | exact mkValid_valid _ _ _ _ _ _ h
    | exact absurd h (by simp)

/-- Format 4 only succeeds on valid datetimes. -/
theorem fmtYMDh_valid (s : List Char) (L : PyDT) (h : fmtYMDh s = some L) :
    ValidDT L := by
  unfold fmtYMDh at h
  repeat' split at h
  all_goals first
    | exact mkValid_valid _ _ _ _ _ _ h
    | exact absurd h (by simp)

/-- Whatever format matched, the resulting datetime is valid. -/
theorem tryFormats_valid (s : List Char) (L : PyDT) (h : tryFormats s = some L) :
    ValidDT L := by
  unfold tryFormats at h
  cases h1 : fmtDMYhm s with
  | some L1 =>
    simp only [h1, Option.some.injEq] at h
    rw [← h]
    exact fmtDMYhm_valid s L1 h1
  | none =>
    simp only [h1] at h
    cases h2 : fmtDMYh s with
    | some L2 =>
      simp only [h2, Option.some.injEq] at h
      rw [← h]
      exact fmtDMYh_valid s L2 h2
    | none =>
      simp only [h2] at h
      cases h3 : fmtYMDhm s with
      | some L3 =>
        simp only [h3, Option.some.injEq] at h
        rw [← h]
        exact fmtYMDhm_valid s L3 h3
      | none =>
        simp only [h3] at h
        exact fmtYMDh_valid s L h

/-- The attached Athens offset is one of the two legal values. -/
theorem athensLocalOffset_cases (L : PyDT) :
    athensLocalOffset L = 120 ∨ athensLocalOffset L = 180 := by
  unfold athensLocalOffset
  split
  · exact Or.inr rfl
  · exact Or.inl rfl

/-- Converting a correctly localized, non-gap wall clock to Europe/Athens is
the identity on both the wall clock and the offset. -/
theorem astimezone_athens_fixed (L : PyDT) (hv : ValidDT L) (hgap : ¬ InSpringGap L)
    (hlow : 10800 ≤ toSec L) :
    astimezoneAthens L (athensLocalOffset L) = some (L, athensLocalOffset L) := by
  have hle := toSec_le_max L hv
  have hagree := athensUTC_agrees L hv hgap hlow
  rcases athensLocalOffset_cases L with h | h <;> rw [h] at hagree ⊢ <;>
  · unfold astimezoneAthens utcOfAware
    rw [if_pos (by constructor <;> omega)]
    have h2 : ((toSec L : Int) - 60 * 120).toNat = toSec L - (60 * (120 : Int)).toNat ∧
        ((toSec L : Int) - 60 * 180).toNat = toSec L - (60 * (180 : Int)).toNat := by
      constructor <;> omega
    first
      | rw [h2.1, hagree]
      | rw [h2.2, hagree]
    rw [if_pos (by constructor <;> omega)]
    have h4120 : ((toSec L : Int) - 60 * 120 + 60 * 120).toNat = toSec L := by omega
    have h4180 : ((toSec L : Int) - 60 * 180 + 60 * 180).toNat = toSec L := by omega
    first
      | rw [h4120, fromSec_toSec L hv]
      | rw [h4180, fromSec_toSec L hv]

/-- C3, amended.  For every `(date, hour)` pair on which one of the four
recognized formats matches, yielding wall clock `L` — provided `L` does not
fall in the (modelled) Athens spring-forward gap and is at least
0001-01-01 03:00 (so the UTC conversion stays inside the representable
`datetime` range) — the normalizer's output is exactly the canonical
serialization of `L` with the Athens `fold=0` offset attached; that string
parses back to the identical year, month, day, hour, minute (and second)
with that offset; and re-normalizing it through the second normalizer path
returns it unchanged. -/
theorem c3_roundtrip_localized (dateStr hourStr : String) (L : PyDT)
    (hm : tryFormats (hourNorm (sCombined dateStr hourStr)).2 = some L)
    (hgap : ¬ InSpringGap L) (hlow : 10800 ≤ toSec L) :
    tryParseDatetime dateStr hourStr = String.mk (isoChars L (athensLocalOffset L)) ∧
      isoShapeParse (isoChars L (athensLocalOffset L)) = some (L, athensLocalOffset L) ∧
      normalizeIsoWithTz (String.mk (isoChars L (athensLocalOffset L)))
        = some (String.mk (isoChars L (athensLocalOffset L))) := by
  have hv : ValidDT L := tryFormats_valid _ _ hm
  have ho1 : 0 ≤ athensLocalOffset L := by
    rcases athensLocalOffset_cases L with h | h <;> rw [h] <;> norm_num
  have ho2 : athensLocalOffset L < 1440 := by
    rcases athensLocalOffset_cases L with h | h <;> rw [h] <;> norm_num
  have hparse := isoShapeParse_isoChars L (athensLocalOffset L) hv ho1 ho2
  have hs0 : ¬ (sCombined dateStr hourStr = []) := by
    intro he
    rw [he] at hm
    have hnone : tryFormats (hourNorm ([] : List Char)).2 = none := by decide
    rw [hnone] at hm
    cases hm
  refine ⟨?_, hparse, ?_⟩
  · unfold tryParseDatetime
    rw [if_neg hs0]
    simp only [hm]
  · unfold normalizeIsoWithTz
    have hd : (String.mk (isoChars L (athensLocalOffset L))).data
        = isoChars L (athensLocalOffset L) := rfl
    rw [hd]
    simp only [hparse]
    rw [astimezone_athens_fixed L hv hgap hlow]
    rfl

/-- C3, witness for the amended round-trip theorem at `("01/06/2025", "15")`. -/
theorem c3_roundtrip_localized_witness :
    tryParseDatetime "01/06/2025" "15"
        = String.mk (isoChars ⟨2025, 6, 1, 15, 0, 0⟩
            (athensLocalOffset ⟨2025, 6, 1, 15, 0, 0⟩)) ∧
      isoShapeParse (isoChars ⟨2025, 6, 1, 15, 0, 0⟩
            (athensLocalOffset ⟨2025, 6, 1, 15, 0, 0⟩))
        = some (⟨2025, 6, 1, 15, 0, 0⟩, athensLocalOffset ⟨2025, 6, 1, 15, 0, 0⟩) ∧
      normalizeIsoWithTz (String.mk (isoChars ⟨2025, 6, 1, 15, 0, 0⟩
            (athensLocalOffset ⟨2025, 6, 1, 15, 0, 0⟩)))
        = some (String.mk (isoChars ⟨2025, 6, 1, 15, 0, 0⟩
            (athensLocalOffset ⟨2025, 6, 1, 15, 0, 0⟩))) :=
  c3_roundtrip_localized "01/06/2025" "15" ⟨2025, 6, 1, 15, 0, 0⟩
    (by decide) (by decide) (by decide)

end GTD
